import Mathlib

/-!
A verification development for the GEO-dataset luigi pipeline
(`src/pipeline.py`).  The pipeline's tabular data, its sectioned-text
parser (`ExtractAndProcessFiles.process_text_file`), the pandas calls it
makes (`pd.read_csv(..., sep="\t")`, `df.to_csv(..., sep="\t",
index=False)`, `df.drop(columns=..., errors="ignore")`), the probe-table
trimming stage (`TrimProbesTable`) and the cleanup stage
(`CleanupOriginalFiles`) are embedded shallowly below.  File contents are
modelled as their list of newline-terminated lines; field values are kept
as opaque text (spec section 4.1 keeps pandas' numeric type inference
abstract).  Fallible pandas calls are modelled with `Option`:
`none` stands for an escaping exception (`pandas.errors.EmptyDataError`).
-/

namespace GeoPipeline

/-- Splits a character list at every occurrence of `sep`; `acc` is the field
accumulated so far.  Mirrors Python `str.split(sep)` (and the pandas C
tokenizer on unquoted fields): `splitChAux sep [] [] = [[]]`. -/
def splitChAux (sep : Char) : List Char → List Char → List (List Char)
  | [], acc => [acc]
  | c :: cs, acc =>
    if c = sep then acc :: splitChAux sep cs [] else splitChAux sep cs (acc ++ [c])

/-- Joins character lists with `sep` between consecutive fields
(Python `sep.join`). -/
def joinCh (sep : Char) : List (List Char) → List Char
  | [] => []
  | [f] => f
  | f :: fs => f ++ sep :: joinCh sep fs

/-- Concatenation of lines in which each written line is terminated by
`'\n'` — how every text file of the pipeline is laid out on disk. -/
def unlinesCh : List (List Char) → List Char
  | [] => []
  | l :: ls => l ++ '\n' :: unlinesCh ls

/-- Tab-splitting of one line into its fields. -/
def splitFields (s : String) : List String :=
  (splitChAux '\t' s.data []).map String.mk

/-- Tab-joining of the fields of one line. -/
def tabJoin (fs : List String) : String :=
  String.mk (joinCh '\t' (fs.map String.data))

/-- The lines of a file content (the final empty piece after the trailing
newline included, as `str.split` would produce it). -/
def linesOf (s : String) : List String :=
  (splitChAux '\n' s.data []).map String.mk

/-- In-memory table, mirroring the pandas `DataFrame`s the pipeline builds.
`named = true` when the column labels came from a header row (pandas
`header='infer'`); `named = false` when the frame was read with
`header=None`, in which case pandas labels the columns with the positional
integers `0, 1, …`, stored here in their serialized form `"0", "1", …`.
Field values are opaque text. -/
structure Table where
  named : Bool
  cols : List String
  rows : List (List String)
deriving DecidableEq

/-- `pd.read_csv(buf, sep="\t", header=h)` on the list of lines of `buf`.
Blank lines are skipped (pandas default `skip_blank_lines=True`); an input
with no non-blank line makes pandas raise `EmptyDataError`, modelled as
`none`.  With `headerNone = false` (pandas `header='infer'`) the first
non-blank line is the column row; with `headerNone = true`
(pandas `header=None`) every line is a data row and the columns are the
positional labels `"0", "1", …`. -/
def readCsv (headerNone : Bool) (body : List String) : Option Table :=
  match body.filter (fun l => !(l == "")) with
  | [] => none
  | l :: rest =>
    if headerNone then
      some ⟨false, (List.range (splitFields l).length).map (fun i => toString i),
            (l :: rest).map splitFields⟩
    else
      some ⟨true, splitFields l, rest.map splitFields⟩

/-- The lines written by `df.to_csv(path, sep="\t", index=False)`: pandas
writes the column-label row first (`header=True` is its default, and this
holds also for the positional integer labels of a frame read with
`header=None`), then one tab-joined line per data row. -/
def toCsvLines (t : Table) : List String :=
  tabJoin t.cols :: t.rows.map tabJoin

/-- The file content produced by `df.to_csv(path, sep="\t", index=False)`:
every written line, the column row included, is terminated by a newline. -/
def toCsv (t : Table) : String :=
  String.mk (unlinesCh ((toCsvLines t).map String.data))

/-- The characters stripped by `line.strip("[]\n")` in
`process_text_file`. -/
def hdrStripChars : List Char := ['[', ']', '\n']

/-- Python `line.strip("[]\n")`: removes the characters `[`, `]`, `\n`
from both ends of the line. -/
def stripHdr (s : String) : String :=
  String.mk (((s.data.dropWhile (fun c => hdrStripChars.contains c)).reverse.dropWhile
      (fun c => hdrStripChars.contains c)).reverse)

/-- Python `line.startswith("[")`. -/
def isSectionHdr (s : String) : Bool :=
  s.data.head? == some '['

/-- `dfs[key] = value` on a Python `dict`, kept as an association list in
insertion order: an existing key keeps its position and gets the new
value, a new key is appended. -/
def upsert (k : String) (v : Table) : List (String × Table) → List (String × Table)
  | [] => [(k, v)]
  | (k', v') :: rest => if k' = k then (k, v) :: rest else (k', v') :: upsert k v rest

/-- The intermediate flush in `process_text_file` (pipeline.py lines
100–103): when a new `[...]` header line arrives while a section `wk` is
open (Python truthiness: `wk` neither `None` nor `""`, both modelled as
`""`), the accumulated body is parsed with `header=None` exactly when
`wk = "Heading"`, else with `header='infer'`.  `none` models the
`EmptyDataError` escaping `process_text_file`. -/
def flushSection (wk : String) (body : List String) (acc : List (String × Table)) :
    Option (List (String × Table)) :=
  if wk == "" then some acc
  else
    match readCsv (wk == "Heading") body with
    | none => none
    | some t => some (upsert wk t acc)

/-- The final flush in `process_text_file` (pipeline.py lines 112–115): the
last open section is read with `pd.read_csv(fio, sep="\t")`, whose header
argument defaults to `'infer'` — the `"Heading"` special case of the
intermediate flush is absent here. -/
def flushLast (wk : String) (body : List String) (acc : List (String × Table)) :
    Option (List (String × Table)) :=
  if wk == "" then some acc
  else
    match readCsv false body with
    | none => none
    | some t => some (upsert wk t acc)

/-- The line loop of `process_text_file` (pipeline.py lines 98–115): `wk` is
`write_key` (with `""` for `None`), `body` the lines accumulated in `fio`,
`acc` the `dfs` dict.  Lines before the first header are discarded; body
lines are accumulated only while a section is open. -/
def processGo : List String → String → List String → List (String × Table) →
    Option (List (String × Table))
  | [], wk, body, acc => flushLast wk body acc
  | l :: rest, wk, body, acc =>
    if isSectionHdr l then
      match flushSection wk body acc with
      | none => none
      | some acc' => processGo rest (stripHdr l) [] acc'
    else
      processGo rest wk (if wk == "" then body else body ++ [l]) acc

/-- `ExtractAndProcessFiles.process_text_file` on the list of lines of the
decompressed text file: the section-name-to-table mapping `dfs` in
insertion order, or `none` when a `pd.read_csv` call raises. -/
def processText (lines : List String) : Option (List (String × Table)) :=
  processGo lines "" [] []

/-- The fixed `columns_to_remove` list of `TrimProbesTable.run`
(pipeline.py lines 149–157): the spec's ColumnDropSet. -/
def columns_to_remove : List String :=
  ["Definition", "Ontology_Component", "Ontology_Process", "Ontology_Function",
   "Synonyms", "Obsolete_Probe_Id", "Probe_Sequence"]

/-- One row of `df.drop(columns=columns_to_remove, errors="ignore")`: each
field is kept exactly when the column it is aligned with survives the
drop. -/
def trimRow (cols row : List String) : List String :=
  ((cols.zip row).filter (fun p => !(columns_to_remove.contains p.1))).map Prod.snd

/-- `df.drop(columns=columns_to_remove, errors="ignore")` on a whole table:
every listed column that is present is removed (absent names are ignored,
`errors="ignore"`), the other columns keep their order, every row keeps its
fields for the surviving columns. -/
def trimTable (t : Table) : Table :=
  ⟨t.named, t.cols.filter (fun c => !(columns_to_remove.contains c)),
   t.rows.map (trimRow t.cols)⟩

/-- The message of the `FileNotFoundError` raised by `TrimProbesTable.run`
when `main_dir.rglob("Probes.tsv")` finds nothing (pipeline.py lines
142–144). -/
def fnfMsg (mainDir : String) : String :=
  "Файлы Probes.tsv не найдены в подкаталогах " ++ mainDir

/-- The per-file loop of `TrimProbesTable.run` (pipeline.py lines 159–167).
A found `Probes.tsv` file is given as the directory it sits in together
with its content lines.  Each file is read with
`pd.read_csv(probes_file, sep="\t")`, trimmed, and written as the sibling
`Probes_trimmed.tsv` (the `{stem}_trimmed.tsv` name for stem `"Probes"`).
The returned Bool is `false` when some `pd.read_csv` raised; writes made
before the raise are kept, later files are not processed. -/
def trimLoop : List (String × List String) → List ((String × String) × List String) × Bool
  | [] => ([], true)
  | (d, content) :: rest =>
    match readCsv false content with
    | none => ([], false)
    | some t =>
      let (ws, ok) := trimLoop rest
      (((d, "Probes_trimmed.tsv"), toCsvLines (trimTable t)) :: ws, ok)

/-- `TrimProbesTable.run` (pipeline.py lines 138–167): raises
`FileNotFoundError` (second component `some (fnfMsg mainDir)`) before any
write when the recursive search found zero `Probes.tsv` files; otherwise
processes each found file in order.  The first component lists the files
written, each as `((directory, file name), content lines)`. -/
def trimRun (mainDir : String) (files : List (String × List String)) :
    List ((String × String) × List String) × Option String :=
  if files = [] then ([], some (fnfMsg mainDir))
  else
    let (ws, ok) := trimLoop files
    (ws, if ok then none else some "EmptyDataError")

/-- `TrimProbesTable.output` (pipeline.py lines 130–136): recomputed from the
current filesystem state, given as the list of existing file paths (each a
list of path components).  One `<stem>_trimmed.tsv` target per file whose
name is exactly `Probes.tsv`, at the same directory. -/
def outputTargets (fs : List (List String)) : List (List String) :=
  (fs.filter (fun p => p.getLast? == some "Probes.tsv")).map
    (fun p => p.dropLast ++ ["Probes_trimmed.tsv"])

/-- A file-system tree: what `CleanupOriginalFiles.run` manipulates under
`main_dir`. -/
inductive Entry where
  | file (name : String)
  | dir (name : String) (children : List Entry)

/-- The `fnmatch` test of `rglob("*.txt")` / `rglob("*.gz")`: the name ends
with the given extension. -/
def extMatch (ext : String) (n : String) : Bool :=
  ext.data.isSuffixOf n.data

mutual

/-- The `for f in main_dir.rglob("*" + ext): f.unlink()` passes of
`CleanupOriginalFiles.run` (pipeline.py lines 187–196): every file at any
depth whose name matches the pattern is deleted; directories are kept. -/
def delExt (ext : String) : Entry → Option Entry
  | .file n => if extMatch ext n then none else some (.file n)
  | .dir n cs => some (.dir n (delExtList ext cs))

def delExtList (ext : String) : List Entry → List Entry
  | [] => []
  | e :: es =>
    match delExt ext e with
    | none => delExtList ext es
    | some e' => e' :: delExtList ext es

end

mutual

/-- The `for dir_path in main_dir.glob("**/")` pass (pipeline.py lines
199–202).  `pathlib.Path.glob("**/")` yields directories parent-first, so a
directory is inspected (and removed when empty at that moment) before its
children are; a directory emptied only by the later removal of its children
is therefore never removed. -/
def sweepEntry : Entry → Option Entry
  | .file n => some (.file n)
  | .dir n cs => if cs.isEmpty then none else some (.dir n (sweepEntryList cs))

def sweepEntryList : List Entry → List Entry
  | [] => []
  | e :: es =>
    match sweepEntry e with
    | none => sweepEntryList es
    | some e' => e' :: sweepEntryList es

end

mutual

/-- The names of all files (at any depth) in a tree. -/
def fileNames : Entry → List String
  | .file n => [n]
  | .dir _ cs => fileNamesList cs

def fileNamesList : List Entry → List String
  | [] => []
  | e :: es => fileNames e ++ fileNamesList es

end

mutual

/-- Whether the tree contains a directory with zero entries. -/
def hasEmptyDir : Entry → Bool
  | .file _ => false
  | .dir _ cs => cs.isEmpty || hasEmptyDirList cs

def hasEmptyDirList : List Entry → Bool
  | [] => false
  | e :: es => hasEmptyDir e || hasEmptyDirList es

end

/-- `CleanupOriginalFiles.run` (pipeline.py lines 182–209) on the children
of `main_dir`: delete every `*.txt` file, then every `*.gz` file, then run
the single top-down empty-directory pass, then write the
`cleanup_done.txt` marker into `main_dir`.  (On CPython up to 3.12 the lazy
`glob("**/")` generator additionally raises `FileNotFoundError` when it
descends into a directory removed earlier in the same loop; the pass here
models the traversal the loop body expresses.) -/
def cleanupRun (cs : List Entry) : List Entry :=
  sweepEntryList (delExtList ".gz" (delExtList ".txt" cs)) ++ [.file "cleanup_done.txt"]

/-- One externally visible filesystem action of the per-member loop of
`ExtractAndProcessFiles.run`. -/
inductive MemberEvent where
  | decompress (member : String)
  | unlink (member : String)
  | persistTable (sectionName : String)
  | parseFail
deriving DecidableEq

/-- The filesystem actions of one iteration of the
`for gz_file in main_dir.glob("*.gz")` loop of `ExtractAndProcessFiles.run`
(pipeline.py lines 66–84), in program order: the member is decompressed
into its per-member subdirectory (lines 75–76), the compressed member is
deleted (line 80), and only then is the decompressed text parsed and each
resulting table persisted as `<section_name>.tsv` (line 84 calling
`process_text_file`, which writes at lines 117–120, in `dfs` insertion
order). -/
def memberEvents (member : String) (content : List String) : List MemberEvent :=
  [.decompress member, .unlink member] ++
    (match processText content with
     | none => [.parseFail]
     | some dfs => dfs.map (fun p => .persistTable p.1))

theorem splitChAux_no_sep (sep : Char) (f : List Char) :
    sep ∉ f → ∀ acc, splitChAux sep f acc = [acc ++ f] := by
  induction f with
  | nil => intro _ acc; simp [splitChAux]
  | cons c cs ih =>
    intro h acc
    have hc : ¬ c = sep := by rintro rfl; exact h (List.mem_cons_self _ _)
    have hcs : sep ∉ cs := fun m => h (List.mem_cons_of_mem _ m)
    simp [splitChAux, hc, ih hcs]

theorem splitChAux_sep_cons (sep : Char) (f : List Char) :
    sep ∉ f → ∀ rest acc,
      splitChAux sep (f ++ sep :: rest) acc = (acc ++ f) :: splitChAux sep rest [] := by
  induction f with
  | nil => intro _ rest acc; simp [splitChAux]
  | cons c cs ih =>
    intro h rest acc
    have hc : ¬ c = sep := by rintro rfl; exact h (List.mem_cons_self _ _)
    have hcs : sep ∉ cs := fun m => h (List.mem_cons_of_mem _ m)
    simp [splitChAux, hc, ih hcs]

theorem splitCh_joinCh (sep : Char) (fs : List (List Char)) :
    fs ≠ [] → (∀ f ∈ fs, sep ∉ f) → splitChAux sep (joinCh sep fs) [] = fs := by
  induction fs with
  | nil => intro h _; cases h rfl
  | cons f fs ih =>
    intro _ hall
    cases fs with
    | nil => simp [joinCh, splitChAux_no_sep sep f (hall f (by simp)) []]
    | cons f' fs' =>
      rw [show joinCh sep (f :: f' :: fs') = f ++ sep :: joinCh sep (f' :: fs') from rfl,
        splitChAux_sep_cons sep f (hall f (by simp)) _ []]
      rw [ih (by simp) (fun g hg => hall g (List.mem_cons_of_mem _ hg))]
      simp

theorem splitNl_unlinesCh (ls : List (List Char)) :
    (∀ l ∈ ls, '\n' ∉ l) → splitChAux '\n' (unlinesCh ls) [] = ls ++ [[]] := by
  induction ls with
  | nil => intro _; simp [unlinesCh, splitChAux]
  | cons l ls ih =>
    intro h
    rw [show unlinesCh (l :: ls) = l ++ '\n' :: unlinesCh ls from rfl,
      splitChAux_sep_cons '\n' l (h l (by simp)) _ []]
    rw [ih (fun g hg => h g (List.mem_cons_of_mem _ hg))]
    simp

theorem mem_joinCh (sep : Char) (c : Char) (fs : List (List Char)) :
    c ∈ joinCh sep fs → c = sep ∨ ∃ f ∈ fs, c ∈ f := by
  induction fs with
  | nil => intro h; cases h
  | cons f fs ih =>
    cases fs with
    | nil => intro h; exact Or.inr ⟨f, by simp, by simpa [joinCh] using h⟩
    | cons f' fs' =>
      intro h
      rw [show joinCh sep (f :: f' :: fs') = f ++ sep :: joinCh sep (f' :: fs') from rfl] at h
      rcases List.mem_append.mp h with h1 | h2
      · exact Or.inr ⟨f, by simp, h1⟩
      · rcases List.mem_cons.mp h2 with h3 | h4
        · exact Or.inl h3
        · rcases ih h4 with h5 | ⟨g, hg, hcg⟩
          · exact Or.inl h5
          · exact Or.inr ⟨g, List.mem_cons_of_mem _ hg, hcg⟩

theorem map_mk_data (l : List String) : l.map (fun f => String.mk f.data) = l := by
  have h : (fun f : String => String.mk f.data) = id := funext fun _ => rfl
  rw [h, List.map_id]

theorem splitFields_tabJoin (fs : List String) (h0 : fs ≠ [])
    (h : ∀ f ∈ fs, '\t' ∉ f.data) : splitFields (tabJoin fs) = fs := by
  unfold splitFields tabJoin
  rw [show (String.mk (joinCh '\t' (fs.map String.data))).data
        = joinCh '\t' (fs.map String.data) from rfl]
  rw [splitCh_joinCh '\t' (fs.map String.data) (by simpa using h0)
    (by
      intro l hl
      rcases List.mem_map.mp hl with ⟨f, hf, rfl⟩
      exact h f hf)]
  rw [List.map_map]
  exact map_mk_data fs

theorem tabJoin_nil : tabJoin [] = "" := rfl

theorem newline_not_mem_tabJoin (r : List String) (h : ∀ f ∈ r, '\n' ∉ f.data) :
    '\n' ∉ (tabJoin r).data := by
  intro hmem
  rcases mem_joinCh '\t' '\n' (r.map String.data) hmem with h1 | ⟨g, hg, hcg⟩
  · exact absurd h1 (by decide)
  · rcases List.mem_map.mp hg with ⟨f, hf, rfl⟩
    exact h f hf hcg

/-- C6: for every Table with named columns whose column names and field
values are free of the tab and newline separators (and no all-blank line
arises), reading back the file produced by `df.to_csv(..., sep="\t",
index=False)` with `pd.read_csv(..., sep="\t")` yields a Table with
identical column order and identical rows, field values unchanged. -/
theorem claim_c6_roundtrip (t : Table) (hnamed : t.named = true)
    (hcols : tabJoin t.cols ≠ "")
    (hcolsTab : ∀ c ∈ t.cols, '\t' ∉ c.data)
    (hrows : ∀ r ∈ t.rows, tabJoin r ≠ "" ∧ ∀ f ∈ r, '\t' ∉ f.data) :
    readCsv false (toCsvLines t) = some t := by
  obtain ⟨named, cols, rows⟩ := t
  simp only at hnamed
  subst hnamed
  unfold readCsv toCsvLines
  have hfilter : (tabJoin cols :: rows.map tabJoin).filter (fun l => !(l == ""))
      = tabJoin cols :: rows.map tabJoin := by
    rw [List.filter_eq_self]
    intro a ha
    rcases List.mem_cons.mp ha with h1 | h2
    · subst h1; simpa using hcols
    · rcases List.mem_map.mp h2 with ⟨r, hr, rfl⟩
      simpa using (hrows r hr).1
  rw [hfilter]
  have hcnil : cols ≠ [] := by rintro rfl; exact hcols tabJoin_nil
  have h1 : splitFields (tabJoin cols) = cols := splitFields_tabJoin cols hcnil hcolsTab
  have h2 : (rows.map tabJoin).map splitFields = rows := by
    rw [List.map_map]
    have : ∀ r ∈ rows, splitFields (tabJoin r) = r := by
      intro r hr
      have hrnil : r ≠ [] := by rintro rfl; exact (hrows [] hr).1 tabJoin_nil
      exact splitFields_tabJoin r hrnil (hrows r hr).2
    calc rows.map (fun r => splitFields (tabJoin r)) = rows.map id := List.map_congr_left this
      _ = rows := List.map_id rows
  simp [h1, h2]

/-- Witness for C6 at a concrete two-column, two-row table. -/
theorem claim_c6_witness :
    readCsv false (toCsvLines ⟨true, ["Probe_Id", "Species"], [["1", "Homo"], ["2", "Mus"]]⟩) =
      some ⟨true, ["Probe_Id", "Species"], [["1", "Homo"], ["2", "Mus"]]⟩ :=
  claim_c6_roundtrip ⟨true, ["Probe_Id", "Species"], [["1", "Homo"], ["2", "Mus"]]⟩
    rfl (by decide) (by decide) (by decide)

/-- C5, counterexample: the table the parser builds for an intermediate
`Heading` section of `"[Heading]\nx\ny\n[End]\na\n"` has unnamed
(positional) columns, yet `df.to_csv(..., sep="\t", index=False)` writes
it *with* a leading column row `"0"` — not as the header-less `"x\ny\n"`
the claim requires. -/
theorem claim_c5_cex :
    processText ["[Heading]", "x", "y", "[End]", "a"] =
      some [("Heading", ⟨false, ["0"], [["x"], ["y"]]⟩), ("End", ⟨true, ["a"], []⟩)] ∧
    toCsv ⟨false, ["0"], [["x"], ["y"]]⟩ = "0\nx\ny\n" ∧
    ¬ toCsv ⟨false, ["0"], [["x"], ["y"]]⟩ = "x\ny\n" := by decide

/-- C5, amended: `df.to_csv(path, sep="\t", index=False)` always writes the
column-label row first — whether or not the Table has named columns (for a
table parsed from a `Heading` section the labels are the positional
indices `"0", "1", …`) — followed by one tab-joined line per data row,
each line newline-terminated.  Stated over field values free of the
newline terminator. -/
theorem claim_c5_amended (t : Table)
    (hcols : ∀ c ∈ t.cols, '\n' ∉ c.data)
    (hrows : ∀ r ∈ t.rows, ∀ f ∈ r, '\n' ∉ f.data) :
    linesOf (toCsv t) = (tabJoin t.cols :: t.rows.map tabJoin) ++ [""] ∧
    toCsv ⟨false, t.cols, t.rows⟩ = toCsv ⟨true, t.cols, t.rows⟩ := by
  refine ⟨?_, rfl⟩
  unfold linesOf toCsv
  rw [show (String.mk (unlinesCh ((toCsvLines t).map String.data))).data
        = unlinesCh ((toCsvLines t).map String.data) from rfl]
  rw [splitNl_unlinesCh ((toCsvLines t).map String.data)
    (by
      intro l hl
      rcases List.mem_map.mp hl with ⟨s, hs, rfl⟩
      rcases List.mem_cons.mp hs with h1 | h2
      · subst h1; exact newline_not_mem_tabJoin t.cols hcols
      · rcases List.mem_map.mp h2 with ⟨r, hr, rfl⟩
        exact newline_not_mem_tabJoin r (hrows r hr))]
  rw [List.map_append, List.map_map]
  rw [show (String.mk ∘ String.data) = (fun a : String => String.mk a.data) from rfl]
  rw [map_mk_data (toCsvLines t)]
  rfl

/-- Witness for C5's amended claim at the table of the `Heading` section of
the counterexample stream. -/
theorem claim_c5_witness :
    linesOf (toCsv ⟨false, ["0"], [["x"], ["y"]]⟩) = ["0", "x", "y", ""] :=
  ((claim_c5_amended ⟨false, ["0"], [["x"], ["y"]]⟩ (by decide) (by decide)).1).trans (by decide)

/-- C1: evaluation of the code at the failing input `"[Heading]\nx\ny\n"`.
The final flush (pipeline.py line 115) reads the last open section with
`pd.read_csv(fio, sep="\t")`, i.e. with an *inferred* header, although the
intermediate flush (line 102) would have used `header=None` for a section
named `Heading`.  The stream therefore yields a table whose header row is
`["x"]` with the single data row `["y"]` — not the header-less two-row
table (rows `["x"]`, `["y"]`) the claim requires. -/
theorem claim_c1_heading_final_flush :
    processText ["[Heading]", "x", "y"] =
      some [("Heading", ⟨true, ["x"], [["y"]]⟩)] ∧
    ¬ processText ["[Heading]", "x", "y"] =
      some [("Heading", ⟨false, ["0"], [["x"], ["y"]]⟩)] := by decide

/-- C2, counterexample: in the stream `"[A]\n[B]\nx\n"` the section `A`
has an empty body; its flush calls `pd.read_csv` on an empty buffer, which
raises `EmptyDataError` (modelled `none`) — the parse aborts instead of
yielding a zero-row table for `A`. -/
theorem claim_c2_cex : processText ["[A]", "[B]", "x"] = none := by decide

/-- C2, amended: a section whose body is empty makes the parser raise
(`pandas.errors.EmptyDataError`, modelled as a `none` result) rather than
yield a zero-row Table, both when the empty-bodied section is intermediate
(first conjunct, for every continuation of the stream) and when it is the
last section of the stream (second conjunct). -/
theorem claim_c2_amended :
    (∀ rest : List String, processText ("[A]" :: "[B]" :: rest) = none) ∧
      processText ["[A]"] = none := by
  exact ⟨fun rest => rfl, by decide⟩

theorem zip_map_fst_snd_self {α β : Type _} (l : List (α × β)) :
    (l.map Prod.fst).zip (l.map Prod.snd) = l := by
  induction l with
  | nil => rfl
  | cons a l ih => simp [ih]

theorem filter_zip_eq {α β : Type _} (p : α → Bool) (l : List (α × β)) :
    ((l.map Prod.fst).filter p).zip ((l.filter (fun x => p x.1)).map Prod.snd) =
      l.filter (fun x => p x.1) := by
  rw [List.filter_map Prod.fst l]
  show ((l.filter (fun x => p x.1)).map Prod.fst).zip
      ((l.filter (fun x => p x.1)).map Prod.snd) = _
  exact zip_map_fst_snd_self _

/-- C8: `df.drop(columns=columns_to_remove, errors="ignore")` removes
exactly the drop-set columns that are present (absent drop-set names are
ignored without error, present other columns are kept in order), keeps the
row count, and keeps each row's values for the surviving columns: pairing
the surviving column names with the trimmed row reproduces exactly the
original (column, value) pairs outside the drop set.  Last conjunct: in
`TrimProbesTable.run`'s per-file loop every readable found `Probes.tsv`
table is written as the sibling file `Probes_trimmed.tsv` (the
`{stem}_trimmed.tsv` name for stem `"Probes"`, at the same directory),
with the serialized trimmed table as its content. -/
theorem claim_c8_trim (t : Table) :
    (trimTable t).cols = t.cols.filter (fun c => !(columns_to_remove.contains c)) ∧
    (trimTable t).rows.length = t.rows.length ∧
    (∀ r ∈ t.rows, r.length = t.cols.length →
      (trimTable t).cols.zip (trimRow t.cols r) =
        (t.cols.zip r).filter (fun x => !(columns_to_remove.contains x.1))) ∧
    ∀ (d : String) (content : List String) (tb : Table)
      (rest : List (String × List String)), readCsv false content = some tb →
      (trimLoop ((d, content) :: rest)).1 =
        ((d, "Probes_trimmed.tsv"), toCsvLines (trimTable tb)) :: (trimLoop rest).1 := by
  refine ⟨rfl, by simp [trimTable], ?_, ?_⟩
  · intro r _ hlen
    have hle : t.cols.length ≤ r.length := le_of_eq hlen.symm
    have h1 : (trimTable t).cols =
        ((t.cols.zip r).map Prod.fst).filter (fun c => !(columns_to_remove.contains c)) := by
      show t.cols.filter _ = _
      rw [List.map_fst_zip t.cols r hle]
    have h2 : trimRow t.cols r =
        ((t.cols.zip r).filter
          (fun x => !(columns_to_remove.contains x.1))).map Prod.snd := rfl
    rw [h1, h2]
    exact filter_zip_eq (fun c => !(columns_to_remove.contains c)) (t.cols.zip r)
  · intro d content tb rest h
    cases hr : trimLoop rest with
    | mk ws ok => simp [trimLoop, h, hr]

/-- Witness for C8: a one-row table with columns
`[Probe_Id, Definition, Probe_Sequence]` is trimmed to the single column
`Probe_Id` with the `Probe_Id` value unchanged, and the run loop writes it
as the sibling file `Probes_trimmed.tsv` next to the found file. -/
theorem claim_c8_witness :
    (trimTable ⟨true, ["Probe_Id", "Definition", "Probe_Sequence"],
        [["ILMN_1", "desc", "ACGT"]]⟩).cols.zip
      (trimRow ["Probe_Id", "Definition", "Probe_Sequence"] ["ILMN_1", "desc", "ACGT"]) =
        [("Probe_Id", "ILMN_1")] ∧
    (trimLoop [("data/GSE123/GPL96",
        ["Probe_Id\tDefinition\tProbe_Sequence", "ILMN_1\tdesc\tACGT"])]).1 =
      [(("data/GSE123/GPL96", "Probes_trimmed.tsv"), ["Probe_Id", "ILMN_1"])] :=
  ⟨((claim_c8_trim ⟨true, ["Probe_Id", "Definition", "Probe_Sequence"],
        [["ILMN_1", "desc", "ACGT"]]⟩).2.2.1
      ["ILMN_1", "desc", "ACGT"] (by decide) (by decide)).trans (by decide),
   ((claim_c8_trim ⟨true, ["Probe_Id", "Definition", "Probe_Sequence"],
        [["ILMN_1", "desc", "ACGT"]]⟩).2.2.2 "data/GSE123/GPL96"
      ["Probe_Id\tDefinition\tProbe_Sequence", "ILMN_1\tdesc\tACGT"]
      ⟨true, ["Probe_Id", "Definition", "Probe_Sequence"], [["ILMN_1", "desc", "ACGT"]]⟩
      [] (by decide)).trans (by decide)⟩

theorem trimLoop_ok (files : List (String × List String))
    (h : ∀ f ∈ files, (readCsv false f.2).isSome = true) : (trimLoop files).2 = true := by
  induction files with
  | nil => rfl
  | cons f fs ih =>
    obtain ⟨d, c⟩ := f
    have hf := h (d, c) (by simp)
    rcases ht : readCsv false c with _ | t
    · rw [ht] at hf; simp at hf
    · cases hfs : trimLoop fs with
      | mk ws ok =>
        have h2 := ih (fun g hg => h g (List.mem_cons_of_mem _ hg))
        rw [hfs] at h2
        simp only at h2
        simp [trimLoop, ht, hfs, h2]

/-- C7: `TrimProbesTable.run` raises its `FileNotFoundError` exactly when
the recursive search found zero `Probes.tsv` files (under the hypothesis
that every found file is readable, i.e. `pd.read_csv` does not raise on
it); in the zero-file case nothing is written, and the error message names
the expected `Probes.tsv` files. -/
theorem claim_c7_prune_missing (md : String) (files : List (String × List String))
    (hread : ∀ f ∈ files, (readCsv false f.2).isSome = true) :
    ((trimRun md files).2.isSome = true ↔ files = []) ∧
    (files = [] → trimRun md files = ([], some (fnfMsg md))) ∧
    ∃ pre post : List Char, (fnfMsg md).data = pre ++ "Probes.tsv".data ++ post := by
  refine ⟨⟨?_, ?_⟩, ?_, ⟨"Файлы ".data, " не найдены в подкаталогах ".data ++ md.data, ?_⟩⟩
  · intro hsome
    by_contra hne
    rw [trimRun, if_neg hne] at hsome
    cases hfs : trimLoop files with
    | mk ws ok =>
      have hok := trimLoop_ok files hread
      rw [hfs] at hok
      simp only at hok
      rw [hfs] at hsome
      simp [hok] at hsome
  · intro h; subst h; rw [trimRun]; simp
  · intro h; subst h; rw [trimRun]; simp
  · show (fnfMsg md).data = _
    rw [fnfMsg, String.data_append]
    rw [show ("Файлы Probes.tsv не найдены в подкаталогах ").data
          = "Файлы ".data ++ "Probes.tsv".data ++ " не найдены в подкаталогах ".data from
        by decide]
    simp [List.append_assoc]

/-- Witness for C7 at one readable found file (no error raised) — the
instantiated statement of the theorem. -/
theorem claim_c7_witness :
    ((trimRun "data/GSE123" [("data/GSE123/GPL96", ["Probe_Id\tDefinition", "p1\tfoo"])]).2.isSome
        = true ↔
      [("data/GSE123/GPL96", ["Probe_Id\tDefinition", "p1\tfoo"])]
        = ([] : List (String × List String))) ∧
    ([("data/GSE123/GPL96", ["Probe_Id\tDefinition", "p1\tfoo"])]
        = ([] : List (String × List String)) →
      trimRun "data/GSE123" [("data/GSE123/GPL96", ["Probe_Id\tDefinition", "p1\tfoo"])]
        = ([], some (fnfMsg "data/GSE123"))) ∧
    ∃ pre post : List Char,
      (fnfMsg "data/GSE123").data = pre ++ "Probes.tsv".data ++ post :=
  claim_c7_prune_missing "data/GSE123"
    [("data/GSE123/GPL96", ["Probe_Id\tDefinition", "p1\tfoo"])] (by decide)

/-- C10: `TrimProbesTable.output` is a pure function of the current
filesystem state: it lists one sibling `<stem>_trimmed.tsv` target per
currently existing file named `Probes.tsv`, and is empty exactly in the
states (such as before `ExtractAndProcessFiles` has run) where no
`Probes.tsv` file exists. -/
theorem claim_c10_output_targets (fs : List (List String)) :
    ((∀ p ∈ fs, ¬ p.getLast? = some "Probes.tsv") → outputTargets fs = []) ∧
    (outputTargets fs).length =
      (fs.filter (fun p => p.getLast? == some "Probes.tsv")).length ∧
    ∀ p ∈ fs, p.getLast? = some "Probes.tsv" →
      p.dropLast ++ ["Probes_trimmed.tsv"] ∈ outputTargets fs := by
  refine ⟨?_, by simp [outputTargets], ?_⟩
  · intro h
    unfold outputTargets
    rw [List.filter_eq_nil_iff.mpr (by intro p hp; simpa using h p hp)]
    rfl
  · intro p hp hl
    unfold outputTargets
    exact List.mem_map_of_mem _ (List.mem_filter.mpr ⟨hp, by simp [hl]⟩)

/-- Witness for C10: one `Probes.tsv` file yields its sibling trimmed
target; a state without any `Probes.tsv` yields the empty output list. -/
theorem claim_c10_witness :
    ["data", "GSE123", "GPL96", "Probes.tsv"].dropLast ++ ["Probes_trimmed.tsv"] ∈
      outputTargets [["data", "GSE123", "GPL96", "Probes.tsv"],
        ["data", "GSE123", "processed_done.txt"]] ∧
    outputTargets [["data", "GSE123", "processed_done.txt"]] = [] :=
  ⟨(claim_c10_output_targets _).2.2 _ (by decide) (by decide),
   (claim_c10_output_targets _).1 (by decide)⟩

mutual

theorem fileNames_delExt (ext : String) (e : Entry) :
    ∀ e', delExt ext e = some e' →
      ∀ n ∈ fileNames e', n ∈ fileNames e ∧ extMatch ext n = false := by
  cases e with
  | file nm =>
    intro e' h n hn
    by_cases hm : extMatch ext nm
    · simp [delExt, hm] at h
    · simp only [delExt, hm, if_neg, Bool.false_eq_true, ite_false, Option.some.injEq] at h
      subst h
      simp only [fileNames, List.mem_singleton] at hn
      subst hn
      exact ⟨by simp [fileNames], by simpa using hm⟩
  | dir nm cs =>
    intro e' h n hn
    simp only [delExt, Option.some.injEq] at h
    subst h
    simp only [fileNames] at hn ⊢
    exact fileNames_delExtList ext cs n hn

theorem fileNames_delExtList (ext : String) (es : List Entry) :
    ∀ n ∈ fileNamesList (delExtList ext es),
      n ∈ fileNamesList es ∧ extMatch ext n = false := by
  cases es with
  | nil => intro n hn; simp [delExtList, fileNamesList] at hn
  | cons e es =>
    intro n hn
    rw [delExtList] at hn
    cases hd : delExt ext e with
    | none =>
      rw [hd] at hn
      have h := fileNames_delExtList ext es n hn
      exact ⟨by simp only [fileNamesList, List.mem_append]; exact Or.inr h.1, h.2⟩
    | some e' =>
      rw [hd] at hn
      rw [fileNamesList] at hn
      rcases List.mem_append.mp hn with h1 | h2
      · have h := fileNames_delExt ext e e' hd n h1
        exact ⟨by simp only [fileNamesList, List.mem_append]; exact Or.inl h.1, h.2⟩
      · have h := fileNames_delExtList ext es n h2
        exact ⟨by simp only [fileNamesList, List.mem_append]; exact Or.inr h.1, h.2⟩

end

mutual

theorem fileNames_sweepEntry (e : Entry) :
    ∀ e', sweepEntry e = some e' → ∀ n ∈ fileNames e', n ∈ fileNames e := by
  cases e with
  | file nm =>
    intro e' h n hn
    simp only [sweepEntry, Option.some.injEq] at h
    subst h
    exact hn
  | dir nm cs =>
    intro e' h n hn
    by_cases hc : cs.isEmpty
    · simp [sweepEntry, hc] at h
    · simp only [sweepEntry, hc, Bool.false_eq_true, ite_false, Option.some.injEq] at h
      subst h
      simp only [fileNames] at hn ⊢
      exact fileNames_sweepEntryList cs n hn

theorem fileNames_sweepEntryList (es : List Entry) :
    ∀ n ∈ fileNamesList (sweepEntryList es), n ∈ fileNamesList es := by
  cases es with
  | nil => intro n hn; exact hn
  | cons e es =>
    intro n hn
    rw [sweepEntryList] at hn
    cases hd : sweepEntry e with
    | none =>
      rw [hd] at hn
      have h := fileNames_sweepEntryList es n hn
      simp only [fileNamesList, List.mem_append]
      exact Or.inr h
    | some e' =>
      rw [hd] at hn
      rw [fileNamesList] at hn
      rcases List.mem_append.mp hn with h1 | h2
      · simp only [fileNamesList, List.mem_append]
        exact Or.inl (fileNames_sweepEntry e e' hd n h1)
      · simp only [fileNamesList, List.mem_append]
        exact Or.inr (fileNames_sweepEntryList es n h2)

end

theorem fileNamesList_append (xs ys : List Entry) :
    fileNamesList (xs ++ ys) = fileNamesList xs ++ fileNamesList ys := by
  induction xs with
  | nil => rfl
  | cons e es ih =>
    simp only [List.cons_append, fileNamesList, List.append_eq, ih, List.append_assoc]

/-- C3, counterexample: on the dataset tree `a/b/x.txt`, Sweep deletes
`x.txt`, which empties `b`; the single top-down pass visits `a` while `b`
is still present, removes only `b`, and leaves `a` behind as an empty
directory.  Moreover the `cleanup_done.txt` marker written by Sweep itself
is a remaining `*.txt` file.  Both conjuncts of the claim fail. -/
theorem claim_c3_cex :
    hasEmptyDirList (cleanupRun [.dir "a" [.dir "b" [.file "x.txt"]]]) = true ∧
    (fileNamesList (cleanupRun [.dir "a" [.dir "b" [.file "x.txt"]]])).any
      (fun n => extMatch ".txt" n) = true := by decide

/-- C3, amended: after `CleanupOriginalFiles.run`, no `*.gz` file remains
under the dataset root and the only remaining `*.txt` file is the
`cleanup_done.txt` completion marker Sweep itself writes; but the
empty-directory removal is a single top-down pass that removes only
directories already empty when visited, so directories emptied by the
removal of their own subdirectories can remain (shown by the
counterexample). -/
theorem claim_c3_amended (cs : List Entry) :
    (fileNamesList (cleanupRun cs)).all (fun n => !(extMatch ".gz" n)) = true ∧
    (fileNamesList (cleanupRun cs)).all
      (fun n => !(extMatch ".txt" n) || (n == "cleanup_done.txt")) = true := by
  have key : ∀ n ∈ fileNamesList (cleanupRun cs),
      n = "cleanup_done.txt" ∨ (extMatch ".gz" n = false ∧ extMatch ".txt" n = false) := by
    intro n hn
    rw [cleanupRun, fileNamesList_append] at hn
    rcases List.mem_append.mp hn with h1 | h2
    · right
      have hs := fileNames_sweepEntryList _ n h1
      have hgz := fileNames_delExtList ".gz" _ n hs
      have htxt := fileNames_delExtList ".txt" _ n hgz.1
      exact ⟨hgz.2, htxt.2⟩
    · left
      simpa [fileNamesList, fileNames] using h2
  constructor
  · rw [List.all_eq_true]
    intro n hn
    rcases key n hn with h | h
    · subst h; decide
    · simp [h.1]
  · rw [List.all_eq_true]
    intro n hn
    rcases key n hn with h | h
    · subst h; decide
    · simp [h.2]

/-- C4: the code violates the monotonicity invariant — after
`CleanupOriginalFiles.run`, the file `processed_done.txt` (the declared
output artifact of `ExtractAndProcessFiles`) is gone from every dataset
tree, because Sweep's `main_dir.rglob("*.txt")` deletion matches the
marker itself; `is_complete()` of the earlier stage is therefore false
after Sweep. -/
theorem claim_c4_sweep_deletes_marker (cs : List Entry) :
    (fileNamesList (cleanupRun cs)).all (fun n => !(n == "processed_done.txt")) = true := by
  rw [List.all_eq_true]
  intro n hn
  rw [cleanupRun, fileNamesList_append] at hn
  rcases List.mem_append.mp hn with h1 | h2
  · have hs := fileNames_sweepEntryList _ n h1
    have hgz := fileNames_delExtList ".gz" _ n hs
    have htxt := fileNames_delExtList ".txt" _ n hgz.1
    by_contra hb
    simp only [Bool.not_eq_true, Bool.not_eq_false', beq_iff_eq] at hb
    subst hb
    have : extMatch ".txt" "processed_done.txt" = true := by decide
    rw [htxt.2] at this
    exact absurd this (by decide)
  · have : n = "cleanup_done.txt" := by simpa [fileNamesList, fileNames] using h2
    subst this
    decide

/-- C9, counterexample: for a member with one one-column section `A`, the
deletion of the compressed member (index 1 in the event trace) happens
strictly *before* the table of section `A` is persisted (index 2) — the
code unlinks the `.gz` file at pipeline.py line 80, before calling
`process_text_file` at line 84, not after persisting. -/
theorem claim_c9_cex :
    memberEvents "GPL96.txt" ["[A]", "a", "1"] =
      [.decompress "GPL96.txt", .unlink "GPL96.txt", .persistTable "A"] ∧
    (memberEvents "GPL96.txt" ["[A]", "a", "1"]).indexOf
        (MemberEvent.unlink "GPL96.txt") <
      (memberEvents "GPL96.txt" ["[A]", "a", "1"]).indexOf
        (MemberEvent.persistTable "A") := by decide

/-- C9, amended: for every compressed member the order of filesystem
actions is: the member is decompressed into its per-member subdirectory
(index 0), then the now-redundant compressed member is deleted (index 1),
and only then is the decompressed text parsed and every resulting table
persisted (every persist event sits at an index at least 2). -/
theorem claim_c9_amended (m : String) (content : List String) (i : Nat) (k : String)
    (h : (memberEvents m content).get? i = some (.persistTable k)) :
    (memberEvents m content).get? 0 = some (.decompress m) ∧
    (memberEvents m content).get? 1 = some (.unlink m) ∧ 2 ≤ i := by
  refine ⟨rfl, rfl, ?_⟩
  match i with
  | 0 => simp [memberEvents] at h
  | 1 => simp [memberEvents] at h
  | n + 2 => omega

/-- Witness for C9's amended claim at a member with a single section. -/
theorem claim_c9_witness :
    (memberEvents "GPL96.txt" ["[A]", "a"]).get? 0 =
        some (.decompress "GPL96.txt") ∧
    (memberEvents "GPL96.txt" ["[A]", "a"]).get? 1 =
        some (.unlink "GPL96.txt") ∧ 2 ≤ 2 :=
  claim_c9_amended "GPL96.txt" ["[A]", "a"] 2 "A" (by decide)

end GeoPipeline
